import Mathlib

/-!
A shallow embedding of `sales_analysis.py` (sales-data-analysis-dashboard).

The script is a linear pipeline: generate 500 synthetic sales records,
save them to `sales.csv`, reload, clean (fill missing quantities with the
per-product median, cast the quantity column to integer, derive revenue),
then aggregate (total revenue, monthly revenue, top-5 products).

Numeric columns are embedded as exact rationals (`ℚ`); a NaN quantity is
`Option.none`; timestamps are natural numbers counting nanoseconds from
2024-01-01 00:00:00 (all of the script's data lives inside 2024).  The
pandas failure of `astype(int)` on a column that still holds NaN is
embedded as an `Except` error.
-/

set_option maxRecDepth 10000

set_option allowUnsafeReducibility true

attribute [local semireducible] Rat.mul Rat.add Rat.div Rat.sub Rat.inv Rat.neg

/-- Decidable equality of `Except` results (core provides none). -/
instance {ε α : Type} [DecidableEq ε] [DecidableEq α] : DecidableEq (Except ε α) := fun a b =>
  match a, b with
  | .error e1, .error e2 =>
    if h : e1 = e2 then .isTrue (by rw [h])
    else .isFalse (fun hc => h (by injection hc))
  | .error _, .ok _ => .isFalse (fun hc => by injection hc)
  | .ok _, .error _ => .isFalse (fun hc => by injection hc)
  | .ok v1, .ok v2 =>
    if h : v1 = v2 then .isTrue (by rw [h])
    else .isFalse (fun hc => h (by injection hc))

/-- One row of the raw/loaded data frame (`date`, `product`, `quantity`,
`unit_price`): `quantity` is `none` when the value is NaN/absent. -/
structure Record where
  date : ℕ
  product : String
  quantity : Option ℚ
  unit_price : ℚ
deriving DecidableEq

/-- One row after the cleaning section: `quantity` has been cast to
integer and the `revenue` column has been derived. -/
structure CleanRecord where
  date : ℕ
  product : String
  quantity : ℤ
  unit_price : ℚ
  revenue : ℚ
deriving DecidableEq

/-- `Series.median()` over the defined values: sort, take the middle
element for an odd count, the mean of the two middle elements for an even
count; `none` (NaN) for an empty series. -/
def seriesMedian (l : List ℚ) : Option ℚ :=
  match l with
  | [] => none
  | _ :: _ =>
    let s := List.insertionSort (· ≤ ·) l
    let k := l.length
    if k % 2 = 1 then some (s.getD (k / 2) 0)
    else some ((s.getD (k / 2 - 1) 0 + s.getD (k / 2) 0) / 2)

/-- The defined (non-NaN) quantities of the product-`p` group of `ds`. -/
def definedQuantities (ds : List Record) (p : String) : List ℚ :=
  (ds.filter (fun r => r.product == p)).filterMap (fun r => r.quantity)

/-- `df.groupby("product")["quantity"].transform(lambda col: col.fillna(col.median()))`
at one record: a defined quantity is kept, an absent one is replaced by
the median of the defined quantities of the record's product group (which
is still NaN when the group has no defined quantity). -/
def fillQuantity (ds : List Record) (r : Record) : Record :=
  match r.quantity with
  | some _ => r
  | none => { r with quantity := seriesMedian (definedQuantities ds r.product) }

/-- The median-fill line of the cleaning section, applied to the whole
frame. -/
def fillMissing (ds : List Record) : List Record :=
  ds.map (fillQuantity ds)

/-- `astype(int)` on a float value: C-style truncation toward zero. -/
def truncToInt (q : ℚ) : ℤ := if 0 ≤ q then ⌊q⌋ else ⌈q⌉

/-- The error raised by `df["quantity"].astype(int)` when the column
still holds NaN (pandas `IntCastingNaNError`); this is the condition the
spec's error taxonomy calls `DataError` (no basis for imputation). -/
inductive CleanError where
  | intCastingNaN
deriving DecidableEq

/-- `astype(int)` on one record plus the derived
`revenue = quantity * unit_price` column. -/
def castRecord (r : Record) : Except CleanError CleanRecord :=
  match r.quantity with
  | none => .error .intCastingNaN
  | some q => .ok { date := r.date, product := r.product,
                    quantity := truncToInt q, unit_price := r.unit_price,
                    revenue := (truncToInt q : ℚ) * r.unit_price }

/-- `astype(int)` over the whole frame: fails if any record still has an
absent quantity. -/
def castAll : List Record → Except CleanError (List CleanRecord)
  | [] => .ok []
  | r :: rs =>
    match castRecord r with
    | .error e => .error e
    | .ok c =>
      match castAll rs with
      | .error e => .error e
      | .ok cs => .ok (c :: cs)

/-- Section 3 of the script (`CLEAN DATA`): per-group median fill, then
integer coercion of `quantity` and derivation of `revenue`. -/
def cleanData (ds : List Record) : Except CleanError (List CleanRecord) :=
  castAll (fillMissing ds)

/-- The coercion policy stated by the spec (not the code): round to the
nearest integer with ties rounding up. -/
def roundHalfUp (q : ℚ) : ℤ := ⌊q + 1 / 2⌋

/-- Claim C1 as stated: every quantity that was absent before cleaning
ends up as the round-half-up of its group median. -/
def claimC1Statement (ds : List Record) : Prop :=
  ∀ out, cleanData ds = .ok out →
    ∀ i (hi : i < ds.length) (hi2 : i < out.length),
      (ds.get ⟨i, hi⟩).quantity = none →
      ∀ m, seriesMedian (definedQuantities ds (ds.get ⟨i, hi⟩).product) = some m →
        (out.get ⟨i, hi2⟩).quantity = roundHalfUp m

/-- A group whose defined quantities are `[2, 3]`: the median is `5/2`. -/
def dsHalf : List Record :=
  [⟨0, "A", none, 10⟩, ⟨1, "A", some 2, 10⟩, ⟨2, "A", some 3, 10⟩]

/-- What the code actually produces on `dsHalf` (the filled `5/2` is
truncated to `2` by `astype(int)`). -/
def outHalf : List CleanRecord :=
  [⟨0, "A", 2, 10, 20⟩, ⟨1, "A", 2, 10, 20⟩, ⟨2, "A", 3, 10, 30⟩]

/-- A one-record data set used to witness the `DataError` behaviour: the
only record of group `X` has an absent quantity. -/
def dsEmptyGroup : List Record := [⟨0, "X", none, 5⟩]

/-- A data set whose product groups all have a defined quantity. -/
def dsSmall : List Record := [⟨0, "A", some 2, 10⟩, ⟨1, "A", none, 10⟩]

/-- Re-embed a cleaned record as cleaner input (the data frame after a
first cleaning run: integer quantity viewed as a float column). -/
def toInput (c : CleanRecord) : Record :=
  { date := c.date, product := c.product, quantity := some (c.quantity : ℚ),
    unit_price := c.unit_price }


/-- An already-cleaned one-record data set. -/
def cleanedOne : List CleanRecord := [⟨0, "Laptop", 2, 999, 1998⟩]

/-- Claim C10 as stated: quantities of the input in `[1, 5]` and no empty
group suffice for cleaned quantities in `[1, 5]` and strictly positive
revenue. -/
def claimC10Statement (ds : List Record) : Prop :=
  (∀ r ∈ ds, ∀ q, r.quantity = some q → 1 ≤ q ∧ q ≤ 5) →
  (∀ r ∈ ds, definedQuantities ds r.product ≠ []) →
  ∀ out, cleanData ds = .ok out →
    ∀ c ∈ out, (1 ≤ c.quantity ∧ c.quantity ≤ 5) ∧ 0 < c.revenue

/-- A record with unit price 0: all of C10's stated hypotheses hold, yet
its revenue after cleaning is 0. -/
def dsFreePrice : List Record := [⟨0, "A", some 2, 0⟩]

/-- The cleaning output on `dsFreePrice`. -/
def outFreePrice : List CleanRecord := [⟨0, "A", 2, 0, 0⟩]

/-- The product catalogue of the script. -/
def products : List String :=
  ["Laptop", "Wireless Mouse", "USB-C Hub", "Mechanical Keyboard",
   "Monitor", "Webcam", "Headphones", "Desk Lamp", "SSD Drive",
   "Phone Stand"]

/-- The unit-price dictionary of the script (0 is a dead default: the
generator only ever looks up catalogue entries). -/
def prices : String → ℕ
  | "Laptop" => 999
  | "Wireless Mouse" => 29
  | "USB-C Hub" => 45
  | "Mechanical Keyboard" => 89
  | "Monitor" => 349
  | "Webcam" => 79
  | "Headphones" => 149
  | "Desk Lamp" => 35
  | "SSD Drive" => 119
  | "Phone Stand" => 19
  | _ => 0

/-- Nanoseconds per second (pandas timestamps are nanosecond counts). -/
def nsPerSec : ℕ := 1000000000

/-- Nanoseconds per minute. -/
def minuteNs : ℕ := 60 * nsPerSec

/-- Nanoseconds per hour. -/
def hourNs : ℕ := 60 * minuteNs

/-- Nanoseconds per day. -/
def dayNs : ℕ := 24 * hourNs

/-- Nanoseconds from 2024-01-01 00:00:00 to 2024-12-31 00:00:00. -/
def yearSpanNs : ℕ := 365 * dayNs

/-- `n = 500`. -/
def nRecords : ℕ := 500

/-- `int(n * 0.05)`: the number of indices whose quantity is blanked
out.  `500 * 0.05 = 25.0` is exact in floating point, so the value is
exactly 25. -/
def missingCount : ℕ := nRecords * 5 / 100

/-- `pd.date_range(start="2024-01-01", end="2024-12-31", periods=n)`:
`n` evenly spaced timestamps, embedded as nanosecond offsets from
2024-01-01 00:00:00.  (numpy computes the even spacing with float64
rounding of sub-nanosecond remainders; the embedding uses integer
division, which agrees up to that sub-nanosecond rounding and keeps every
claim-relevant property: offset 0 at index 0, monotone spacing, all
offsets within 2024.) -/
def dateRangeNs (i : Fin nRecords) : ℕ := i.1 * yearSpanNs / (nRecords - 1)

/-- Month lengths of 2024 (a leap year). -/
def monthLengths2024 : List ℕ := [31, 29, 31, 30, 31, 30, 31, 31, 30, 31, 30, 31]

/-- Turn a 0-based day of the year into a (1-based month, 1-based day)
pair by walking the month-length table. -/
def mdOfDayAux : List ℕ → ℕ → ℕ → ℕ × ℕ
  | [], m, d => (m, d + 1)
  | len :: rest, m, d => if d < len then (m, d + 1) else mdOfDayAux rest (m + 1) (d - len)

/-- (month, day) of a 0-based day of 2024. -/
def monthDayOfYearDay (d : ℕ) : ℕ × ℕ := mdOfDayAux monthLengths2024 1 d

/-- Inverse of `monthDayOfYearDay`: 0-based day of the year of a
(1-based month, 1-based day) pair. -/
def dayOfMonthDay : List ℕ → ℕ → ℕ → ℕ
  | [], _, d => d - 1
  | len :: rest, m, d => if m ≤ 1 then d - 1 else len + dayOfMonthDay rest (m - 1) d

/-- `to_period("M")` of a timestamp inside 2024: its month number. -/
def monthKey (ns : ℕ) : ℕ := (monthDayOfYearDay (ns / dayNs)).1

/-- Zero-padded fixed-width decimal digits (`%0wd`), as characters. -/
def padNum : ℕ → ℕ → List Char
  | 0, _ => []
  | w + 1, n => padNum w (n / 10) ++ [Nat.digitChar (n % 10)]

/-- Unpadded decimal digits of a natural number, as characters
(fuel-structured so that it evaluates by kernel reduction; `n + 1` fuel
always suffices since `n / 10 < n`). -/
def natDigitsAux : ℕ → ℕ → List Char
  | 0, _ => []
  | fuel + 1, n =>
    if n < 10 then [Nat.digitChar n]
    else natDigitsAux fuel (n / 10) ++ [Nat.digitChar (n % 10)]

/-- Unpadded decimal digits of a natural number, as characters. -/
def natDigits (n : ℕ) : List Char := natDigitsAux (n + 1) n

/-- The fractional-second tail of `str(Timestamp)`: nothing for a whole
second, 6 digits for a whole microsecond, 9 digits otherwise. -/
def fracTail (frac : ℕ) : List Char :=
  if frac = 0 then []
  else if frac % 1000 = 0 then '.' :: padNum 6 (frac / 1000)
  else '.' :: padNum 9 frac

/-- `str(Timestamp)` as `to_csv` writes it for a timestamp inside 2024:
`YYYY-MM-DD HH:MM:SS` plus the fractional tail. -/
def formatTs (ns : ℕ) : String :=
  let md := monthDayOfYearDay (ns / dayNs)
  let tod := ns % dayNs
  String.mk (padNum 4 2024 ++ '-' :: (padNum 2 md.1 ++ '-' :: (padNum 2 md.2 ++
    ' ' :: (padNum 2 (tod / hourNs) ++ ':' :: (padNum 2 (tod % hourNs / minuteNs) ++
    ':' :: (padNum 2 (tod % hourNs % minuteNs / nsPerSec) ++
    fracTail (tod % hourNs % minuteNs % nsPerSec)))))))

/-- Parse a digit string left to right (`none` on a non-digit). -/
def parseDigitsAux : List Char → ℕ → Option ℕ
  | [], acc => some acc
  | c :: cs, acc =>
    if c.isDigit then parseDigitsAux cs (acc * 10 + (c.toNat - 48)) else none

/-- Parse a digit string as a natural number. -/
def parseDigits (l : List Char) : Option ℕ := parseDigitsAux l 0

/-- Read a fixed-width decimal field off the front of a character
stream. -/
def readPad (w : ℕ) (l : List Char) : Option (ℕ × List Char) :=
  if (l.take w).length = w then (parseDigits (l.take w)).map (fun n => (n, l.drop w))
  else none

/-- Read one expected literal character off the front of a stream. -/
def readChar (c : Char) : List Char → Option (List Char)
  | [] => none
  | x :: xs => if x = c then some xs else none

/-- Read the optional fractional-second tail (empty, 6- or 9-digit). -/
def readFrac : List Char → Option ℕ
  | [] => some 0
  | c :: f =>
    if c = '.' then
      if f.length = 6 then (parseDigits f).map (· * 1000)
      else if f.length = 9 then parseDigits f
      else none
    else none

/-- `read_csv(..., parse_dates=["date"])` on one date cell: parse the
timestamp string back to a nanosecond offset from 2024-01-01. -/
def parseTs (s : String) : Option ℕ := do
  let (y, r1) ← readPad 4 s.data
  let r2 ← readChar '-' r1
  let (mo, r3) ← readPad 2 r2
  let r4 ← readChar '-' r3
  let (d, r5) ← readPad 2 r4
  let r6 ← readChar ' ' r5
  let (hh, r7) ← readPad 2 r6
  let r8 ← readChar ':' r7
  let (mi, r9) ← readPad 2 r8
  let r10 ← readChar ':' r9
  let (ss, r11) ← readPad 2 r10
  let frac ← readFrac r11
  if y = 2024 then
    some (dayOfMonthDay monthLengths2024 mo d * dayNs + hh * hourNs +
      mi * minuteNs + ss * nsPerSec + frac)
  else none

/-- Split a character list at the first decimal point, if any. -/
def splitAtDot : List Char → List Char × Option (List Char)
  | [] => ([], none)
  | c :: cs =>
    if c = '.' then ([], some cs)
    else
      let p := splitAtDot cs
      (c :: p.1, p.2)

/-- Parse a decimal-number cell (`999`, `4.0`, ...) as an exact
rational. -/
def parseQ (s : String) : Option ℚ :=
  match splitAtDot s.data with
  | (ip, none) => (parseDigits ip).map (fun n => (n : ℚ))
  | (ip, some fp) =>
    match parseDigits ip, parseDigits fp with
    | some n, some f => some ((n : ℚ) + (f : ℚ) / (10 : ℚ) ^ fp.length)
    | _, _ => none

/-- One record as generated (before any serialization): quantities are
integers 1..5 or absent; the unit price comes from the price table. -/
structure GenRecord where
  date : ℕ
  product : String
  quantity : Option ℕ
  unit_price : ℕ
deriving DecidableEq

/-- One data row of `sales.csv`, one string per cell. -/
structure CsvRow where
  date : String
  product : String
  quantity : String
  unit_price : String
deriving DecidableEq

/-- The header row written by `to_csv(index=False)`. -/
def csvHeader : List String := ["date", "product", "quantity", "unit_price"]

/-- `sales.csv`: a header and one row of cells per record. -/
structure CsvFile where
  header : List String
  rows : List CsvRow
deriving DecidableEq

/-- `to_csv` on one record: the NaN injection upcast the quantity column
to float, so a defined quantity `q` is written as `q.0`; an absent one as
the empty field; the int64 unit price as plain digits. -/
def serializeRow (g : GenRecord) : CsvRow :=
  { date := formatTs g.date,
    product := g.product,
    quantity := match g.quantity with
      | none => ""
      | some q => String.mk (natDigits q ++ ['.', '0']),
    unit_price := String.mk (natDigits g.unit_price) }

/-- `df_raw.to_csv(csv_path, index=False)`. -/
def serializeFile (gs : List GenRecord) : CsvFile :=
  { header := csvHeader, rows := gs.map serializeRow }

/-- A quantity cell on reload: empty means NaN, otherwise a decimal. -/
def parseQuantityCell (s : String) : Option (Option ℚ) :=
  if s = "" then some none else (parseQ s).map some

/-- `pd.read_csv(csv_path, parse_dates=["date"])` on one data row. -/
def parseRow (row : CsvRow) : Option Record := do
  let d ← parseTs row.date
  let q ← parseQuantityCell row.quantity
  let up ← parseQ row.unit_price
  some { date := d, product := row.product, quantity := q, unit_price := up }

/-- Parse all data rows (failing on the first malformed row). -/
def parseRows : List CsvRow → Option (List Record)
  | [] => some []
  | row :: rest => do
    let r ← parseRow row
    let rs ← parseRows rest
    some (r :: rs)

/-- `pd.read_csv` on the whole file: check the header, parse the rows. -/
def deserializeFile (f : CsvFile) : Option (List Record) :=
  if f.header = csvHeader then parseRows f.rows else none

/-- The in-memory record a round-tripped generated record should load
back as (same values, integer columns viewed as floats). -/
def toLoaded (g : GenRecord) : Record :=
  { date := g.date, product := g.product,
    quantity := g.quantity.map (fun q => (q : ℚ)),
    unit_price := (g.unit_price : ℚ) }

/-- The generator (section 1 of the script), parametric in the random
draws: `prodChoice` embeds `np.random.choice(products, size=n)`,
`qtyDraw` embeds `np.random.randint(1, 6, size=n)` (a draw `k` is the
quantity `k + 1`, so quantities are 1..5 by construction), and `missing`
embeds `np.random.choice(df_raw.index, size=int(n*0.05), replace=False)`
(distinctness and size are hypotheses where a claim needs them).  The
`loc` assignment then blanks the quantities at the chosen indices. -/
def generate (prodChoice : Fin nRecords → Fin 10) (qtyDraw : Fin nRecords → Fin 5)
    (missing : List (Fin nRecords)) : List GenRecord :=
  (List.finRange nRecords).map fun i =>
    { date := dateRangeNs i,
      product := products.getD (prodChoice i).1 "",
      quantity := if i ∈ missing then none else some ((qtyDraw i).1 + 1),
      unit_price := prices (products.getD (prodChoice i).1 "") }

/-- `df["revenue"].sum()`. -/
def total_revenue (l : List CleanRecord) : ℚ := (l.map (·.revenue)).sum

/-- `df.groupby("month")["revenue"].sum()`: one (month, summed revenue)
pair per month present.  (pandas sorts the group keys; key order only
affects the order of the aggregate rows, which no claim depends on, so
first-occurrence order is used here.) -/
def monthly_revenue (l : List CleanRecord) : List (ℕ × ℚ) :=
  ((l.map (fun c => monthKey c.date)).dedup).map
    (fun k => (k, ((l.filter (fun c => monthKey c.date == k)).map (·.revenue)).sum))

/-- The descending-revenue order used by
`sort_values(ascending=False)`. -/
def byRevenueDesc (a b : String × ℚ) : Prop := b.2 ≤ a.2

instance : DecidableRel byRevenueDesc :=
  fun a b => inferInstanceAs (Decidable (b.2 ≤ a.2))

instance : IsTotal (String × ℚ) byRevenueDesc :=
  ⟨fun a b => le_total b.2 a.2⟩

instance : IsTrans (String × ℚ) byRevenueDesc :=
  ⟨fun _ _ _ hab hbc => le_trans hbc hab⟩

/-- `df.groupby("product")["revenue"].sum()`: one (product, summed
revenue) pair per distinct product.  (As with months, pandas sorts the
keys; the subsequent revenue sort makes the key order matter only for
ties, which the spec leaves unspecified.) -/
def productRevenueTotals (l : List CleanRecord) : List (String × ℚ) :=
  ((l.map (·.product)).dedup).map
    (fun p => (p, ((l.filter (fun c => c.product == p)).map (·.revenue)).sum))

/-- `groupby("product")["revenue"].sum().sort_values(ascending=False).head(5)`. -/
def top_products (l : List CleanRecord) : List (String × ℚ) :=
  (List.insertionSort byRevenueDesc (productRevenueTotals l)).take 5

/-- Claim C5 as stated: every data row of the saved file has a bare
`YYYY-MM-DD` date cell and an empty-or-plain-integer quantity cell. -/
def isYMD (s : String) : Bool :=
  match s.data with
  | [y1, y2, y3, y4, s1, a1, a2, s2, b1, b2] =>
    y1.isDigit && y2.isDigit && y3.isDigit && y4.isDigit && s1 == '-' &&
      a1.isDigit && a2.isDigit && s2 == '-' && b1.isDigit && b2.isDigit
  | _ => false

/-- Is the cell a plain (unsigned) integer numeral? -/
def isPlainNat (s : String) : Bool :=
  !s.data.isEmpty && s.data.all Char.isDigit

/-- Claim C5 as stated, for a serialized file. -/
def claimC5Statement (f : CsvFile) : Prop :=
  f.header = csvHeader ∧
  ∀ row ∈ f.rows,
    isYMD row.date = true ∧ (row.quantity = "" ∨ isPlainNat row.quantity = true)

/-- A concrete generated file (constant draws, no missing indices). -/
def genFile0 : CsvFile := serializeFile (generate (fun _ => 0) (fun _ => 0) [])

/-! ## Cleaner lemmas -/

theorem castAll_ok_length : ∀ {l : List Record} {out : List CleanRecord},
    castAll l = .ok out → out.length = l.length := by
  intro l
  induction l with
  | nil =>
    intro out h
    simp only [castAll, Except.ok.injEq] at h
    subst h; rfl
  | cons r rs ih =>
    intro out h
    simp only [castAll] at h
    cases hc : castRecord r with
    | error e => rw [hc] at h; exact absurd h (by simp)
    | ok c =>
      rw [hc] at h
      cases hcs : castAll rs with
      | error e => rw [hcs] at h; exact absurd h (by simp)
      | ok cs =>
        rw [hcs] at h
        simp only [Except.ok.injEq] at h
        subst h
        simp [ih hcs]

theorem castAll_ok_get : ∀ {l : List Record} {out : List CleanRecord},
    castAll l = .ok out → ∀ i (h1 : i < l.length) (h2 : i < out.length),
      castRecord (l.get ⟨i, h1⟩) = .ok (out.get ⟨i, h2⟩) := by
  intro l
  induction l with
  | nil => intro out h i h1 h2; exact absurd h1 (by simp)
  | cons r rs ih =>
    intro out h i h1 h2
    simp only [castAll] at h
    cases hc : castRecord r with
    | error e => rw [hc] at h; exact absurd h (by simp)
    | ok c =>
      rw [hc] at h
      cases hcs : castAll rs with
      | error e => rw [hcs] at h; exact absurd h (by simp)
      | ok cs =>
        rw [hcs] at h
        simp only [Except.ok.injEq] at h
        subst h
        cases i with
        | zero => simpa using hc
        | succ j =>
          exact ih hcs j (by simpa using h1) (by simpa using h2)

theorem castAll_ok_mem : ∀ {l : List Record} {out : List CleanRecord},
    castAll l = .ok out → ∀ c ∈ out, ∃ r ∈ l, castRecord r = .ok c := by
  intro l
  induction l with
  | nil =>
    intro out h c hc
    simp only [castAll, Except.ok.injEq] at h
    subst h; exact absurd hc (by simp)
  | cons r rs ih =>
    intro out h c hcmem
    simp only [castAll] at h
    cases hc : castRecord r with
    | error e => rw [hc] at h; exact absurd h (by simp)
    | ok c0 =>
      rw [hc] at h
      cases hcs : castAll rs with
      | error e => rw [hcs] at h; exact absurd h (by simp)
      | ok cs =>
        rw [hcs] at h
        simp only [Except.ok.injEq] at h
        subst h
        rcases List.mem_cons.mp hcmem with h0 | h0
        · exact ⟨r, List.mem_cons_self r rs, h0 ▸ hc⟩
        · obtain ⟨r2, hr2, he⟩ := ih hcs c h0
          exact ⟨r2, List.mem_cons_of_mem r hr2, he⟩

theorem castAll_error_of_none : ∀ {l : List Record},
    (∃ r ∈ l, r.quantity = none) → castAll l = .error .intCastingNaN := by
  intro l
  induction l with
  | nil => rintro ⟨r, hr, _⟩; exact absurd hr (by simp)
  | cons r rs ih =>
    rintro ⟨r0, hr0, hq0⟩
    rcases List.mem_cons.mp hr0 with h0 | h0
    · subst h0
      simp only [castAll, castRecord, hq0]
    · have herr := ih ⟨r0, h0, hq0⟩
      simp only [castAll, herr]
      cases hc : castRecord r with
      | error e => cases e; rfl
      | ok c => rfl

theorem castRecord_ok_elim {r : Record} {c : CleanRecord}
    (h : castRecord r = .ok c) :
    ∃ q, r.quantity = some q ∧
      c = ⟨r.date, r.product, truncToInt q, r.unit_price,
           (truncToInt q : ℚ) * r.unit_price⟩ := by
  cases hq : r.quantity with
  | none => simp [castRecord, hq] at h
  | some q =>
    refine ⟨q, rfl, ?_⟩
    simp only [castRecord, hq, Except.ok.injEq] at h
    exact h.symm

theorem fillMissing_get (ds : List Record) (i : ℕ) (h : i < ds.length)
    (h2 : i < (fillMissing ds).length) :
    (fillMissing ds).get ⟨i, h2⟩ = fillQuantity ds (ds.get ⟨i, h⟩) :=
  List.get_map _

theorem fillMissing_length (ds : List Record) :
    (fillMissing ds).length = ds.length := List.length_map _ _

/-- C1 (amended): the cleaner fills each absent quantity with the median
of the defined quantities of the record's product group and coerces it to
integer with `astype(int)`'s truncation-toward-zero semantics: a record
absent before cleaning ends up with `truncToInt` of its group median (not
the round-half-up value the spec states). -/
theorem median_fill_trunc (ds : List Record) (out : List CleanRecord)
    (hok : cleanData ds = .ok out) (i : ℕ) (hi : i < ds.length)
    (habs : (ds.get ⟨i, hi⟩).quantity = none) :
    ∃ m, seriesMedian (definedQuantities ds (ds.get ⟨i, hi⟩).product) = some m ∧
      ∃ hi2 : i < out.length, (out.get ⟨i, hi2⟩).quantity = truncToInt m := by
  have hlen : out.length = ds.length := by
    rw [castAll_ok_length hok, fillMissing_length]
  have hi2 : i < out.length := by omega
  have hif : i < (fillMissing ds).length := by rw [fillMissing_length]; omega
  have hget := castAll_ok_get hok i hif hi2
  rw [fillMissing_get ds i hi hif] at hget
  rw [fillQuantity, habs] at hget
  cases hm : seriesMedian (definedQuantities ds (ds.get ⟨i, hi⟩).product) with
  | none =>
    rw [hm] at hget
    simp [castRecord] at hget
  | some m =>
    rw [hm] at hget
    simp only [castRecord, Except.ok.injEq] at hget
    refine ⟨m, rfl, hi2, ?_⟩
    rw [← hget]

/-- C1 counterexample: on `dsHalf` the group median is `5/2`; the code
truncates it to `2`, while the claim's round-half-up policy demands `3`. -/
theorem roundPolicy_counterexample : ¬ claimC1Statement dsHalf := by
  intro h
  have h0 := h outHalf (by decide) 0 (by decide) (by decide) (by decide)
    (5 / 2) (by decide)
  exact absurd h0 (by decide)

/-- C1 witness: the amended theorem evaluated on `dsHalf`. -/
theorem median_fill_trunc_witness :
    cleanData dsHalf = .ok outHalf ∧
    (dsHalf.get ⟨0, by decide⟩).quantity = none ∧
    ∃ m, seriesMedian (definedQuantities dsHalf (dsHalf.get ⟨0, by decide⟩).product) = some m ∧
      ∃ hi2 : 0 < outHalf.length, (outHalf.get ⟨0, hi2⟩).quantity = truncToInt m :=
  ⟨by decide, by decide,
    median_fill_trunc dsHalf outHalf (by decide) 0 (by decide) (by decide)⟩

/-- C2: a product group with zero defined quantities makes the cleaner
fail (the median stays NaN, the fill keeps NaN, and `astype(int)` raises
— the spec's `DataError`); in particular no output data set exists, so
nothing is silently filled with zero. -/
theorem emptyGroup_error (ds : List Record)
    (h : ∃ r ∈ ds, definedQuantities ds r.product = []) :
    cleanData ds = .error .intCastingNaN := by
  obtain ⟨r, hr, hempty⟩ := h
  have hq : r.quantity = none := by
    cases hq : r.quantity with
    | none => rfl
    | some q =>
      exfalso
      have : q ∈ definedQuantities ds r.product := by
        unfold definedQuantities
        refine List.mem_filterMap.mpr ⟨r, ?_, hq⟩
        refine List.mem_filter.mpr ⟨hr, ?_⟩
        simp
      rw [hempty] at this
      exact absurd this (by simp)
  apply castAll_error_of_none
  refine ⟨fillQuantity ds r, List.mem_map_of_mem _ hr, ?_⟩
  rw [fillQuantity, hq, hempty]
  rfl

/-- C2 witness: the one-record group `X` has no defined quantity. -/
theorem emptyGroup_error_witness :
    (∃ r ∈ dsEmptyGroup, definedQuantities dsEmptyGroup r.product = []) ∧
    cleanData dsEmptyGroup = .error .intCastingNaN :=
  ⟨⟨⟨0, "X", none, 5⟩, by decide, by decide⟩,
    emptyGroup_error dsEmptyGroup ⟨⟨0, "X", none, 5⟩, by decide, by decide⟩⟩

theorem seriesMedian_isSome {l : List ℚ} (h : l ≠ []) :
    ∃ m, seriesMedian l = some m := by
  cases l with
  | nil => exact absurd rfl h
  | cons a as =>
    dsimp only [seriesMedian]
    split
    · exact ⟨_, rfl⟩
    · exact ⟨_, rfl⟩

/-- C3: when every product group has at least one defined quantity the
cleaner succeeds, the output has no absent quantity (its `quantity`
column is integer-typed), has one record per input record, and every
output record satisfies `revenue = quantity * unit_price` exactly. -/
theorem clean_total (ds : List Record)
    (h : ∀ r ∈ ds, definedQuantities ds r.product ≠ []) :
    ∃ out, cleanData ds = .ok out ∧ out.length = ds.length ∧
      ∀ c ∈ out, c.revenue = (c.quantity : ℚ) * c.unit_price := by
  have hfill : ∀ r2 ∈ fillMissing ds, r2.quantity ≠ none := by
    intro r2 hr2
    obtain ⟨r, hr, hrr⟩ := List.mem_map.mp hr2
    subst hrr
    cases hq : r.quantity with
    | some q => rw [fillQuantity, hq]; simp [hq]
    | none =>
      rw [fillQuantity, hq]
      obtain ⟨m, hm⟩ := seriesMedian_isSome (h r hr)
      simp [hm]
  have hok : ∀ (l : List Record), (∀ r2 ∈ l, r2.quantity ≠ none) →
      ∃ out, castAll l = .ok out ∧ out.length = l.length := by
    intro l
    induction l with
    | nil => exact fun _ => ⟨[], rfl, rfl⟩
    | cons r rs ih =>
      intro hl
      obtain ⟨out, hout, hlen⟩ := ih (fun r2 h2 => hl r2 (List.mem_cons_of_mem r h2))
      cases hq : r.quantity with
      | none => exact absurd hq (hl r (List.mem_cons_self r rs))
      | some q =>
        refine ⟨(⟨r.date, r.product, truncToInt q, r.unit_price,
          (truncToInt q : ℚ) * r.unit_price⟩ : CleanRecord) :: out, ?_, ?_⟩
        · simp only [castAll, castRecord, hq, hout]
        · simp [hlen]
  obtain ⟨out, hout, hlen⟩ := hok (fillMissing ds) hfill
  refine ⟨out, hout, by rw [hlen, fillMissing_length], ?_⟩
  intro c hc
  obtain ⟨r, _, hr⟩ := castAll_ok_mem hout c hc
  obtain ⟨q, _, hcq⟩ := castRecord_ok_elim hr
  subst hcq
  rfl

/-- C3 witness: `dsSmall` (group `A` has a defined quantity). -/
theorem clean_total_witness :
    (∀ r ∈ dsSmall, definedQuantities dsSmall r.product ≠ []) ∧
    ∃ out, cleanData dsSmall = .ok out ∧ out.length = dsSmall.length ∧
      ∀ c ∈ out, c.revenue = (c.quantity : ℚ) * c.unit_price :=
  ⟨by decide, clean_total dsSmall (by decide)⟩

theorem truncToInt_intCast (z : ℤ) : truncToInt (z : ℚ) = z := by
  unfold truncToInt
  split
  · exact Int.floor_intCast z
  · exact Int.ceil_intCast z

/-- C8: the cleaner is idempotent.  A data set with no absent quantity
(characterised as a frame of already-cleaned records, re-read as cleaner
input) passes through the median fill untouched, `astype(int)` is the
identity on its integer quantities, and the recomputed revenue equals the
existing revenue column: the output equals the input. -/
theorem clean_idempotent (l : List CleanRecord)
    (h : ∀ c ∈ l, c.revenue = (c.quantity : ℚ) * c.unit_price) :
    cleanData (l.map toInput) = .ok l := by
  unfold cleanData
  have hfill : fillMissing (l.map toInput) = l.map toInput := by
    unfold fillMissing
    have hfix : ∀ r ∈ l.map toInput, fillQuantity (l.map toInput) r = id r := by
      intro r hr
      obtain ⟨c, _, hc⟩ := List.mem_map.mp hr
      subst hc
      rfl
    rw [List.map_congr_left hfix, List.map_id]
  rw [hfill]
  clear hfill
  induction l with
  | nil => rfl
  | cons c cs ih =>
    have hc : castRecord (toInput c) = .ok c := by
      have hrev := h c (List.mem_cons_self c cs)
      show Except.ok (⟨c.date, c.product, truncToInt (c.quantity : ℚ), c.unit_price,
        (truncToInt (c.quantity : ℚ) : ℚ) * c.unit_price⟩ : CleanRecord) = .ok c
      rw [truncToInt_intCast, ← hrev]
    simp only [List.map_cons, castAll, hc,
      ih (fun x hx => h x (List.mem_cons_of_mem c hx))]

/-- C8 witness: a one-record already-cleaned data set. -/
theorem clean_idempotent_witness :
    (∀ c ∈ cleanedOne, c.revenue = (c.quantity : ℚ) * c.unit_price) ∧
    cleanData (cleanedOne.map toInput) = .ok cleanedOne :=
  ⟨by decide, clean_idempotent cleanedOne (by decide)⟩

theorem getD_mem_of_lt {l : List ℚ} {i : ℕ} (h : i < l.length) : l.getD i 0 ∈ l := by
  rw [List.getD_eq_getElem l 0 h]
  exact List.getElem_mem h

theorem seriesMedian_bounds {l : List ℚ} {lo hi : ℚ}
    (hb : ∀ x ∈ l, lo ≤ x ∧ x ≤ hi) {m : ℚ} (hm : seriesMedian l = some m) :
    lo ≤ m ∧ m ≤ hi := by
  cases l with
  | nil => exact absurd hm (by simp [seriesMedian])
  | cons a as =>
    have hsmem : ∀ x ∈ List.insertionSort (fun x1 x2 => x1 ≤ x2) (a :: as),
        lo ≤ x ∧ x ≤ hi := by
      intro x hx
      exact hb x ((List.mem_insertionSort _).mp hx)
    have hslen : (List.insertionSort (fun x1 x2 => x1 ≤ x2) (a :: as)).length =
        (a :: as).length := List.length_insertionSort _ _
    have hkpos : 0 < (a :: as).length := by simp
    dsimp only [seriesMedian] at hm
    split at hm
    · injection hm with hm
      subst hm
      exact hsmem _ (getD_mem_of_lt (by rw [hslen]; omega))
    · injection hm with hm
      subst hm
      have h1 := hsmem _ (getD_mem_of_lt (i := (a :: as).length / 2 - 1)
        (by rw [hslen]; omega))
      have h2 := hsmem _ (getD_mem_of_lt (i := (a :: as).length / 2)
        (by rw [hslen]; omega))
      constructor
      · linarith [h1.1, h2.1]
      · linarith [h1.2, h2.2]

theorem truncToInt_bounds {q : ℚ} (h1 : 1 ≤ q) (h5 : q ≤ 5) :
    1 ≤ truncToInt q ∧ truncToInt q ≤ 5 := by
  have h0 : (0 : ℚ) ≤ q := by linarith
  unfold truncToInt
  rw [if_pos h0]
  refine ⟨Int.le_floor.mpr (by exact_mod_cast h1), ?_⟩
  calc ⌊q⌋ ≤ ⌊(5 : ℚ)⌋ := Int.floor_le_floor h5
    _ = 5 := by norm_num

theorem fillQuantity_unit_price (ds : List Record) (r : Record) :
    (fillQuantity ds r).unit_price = r.unit_price := by
  unfold fillQuantity
  split <;> rfl

/-- C10 (amended): if every defined quantity of the input lies in
`[1, 5]`, every product group has a defined quantity, and every unit
price is positive (the price table only holds positive prices, but the
claim's hypotheses must say so), then after cleaning every quantity is an
integer in `[1, 5]` and every revenue is strictly positive. -/
theorem clean_bounds (ds : List Record)
    (hq : ∀ r ∈ ds, ∀ q, r.quantity = some q → 1 ≤ q ∧ q ≤ 5)
    (hp : ∀ r ∈ ds, 0 < r.unit_price)
    (out : List CleanRecord) (hok : cleanData ds = .ok out) :
    ∀ c ∈ out, (1 ≤ c.quantity ∧ c.quantity ≤ 5) ∧ 0 < c.revenue := by
  intro c hc
  obtain ⟨r2, hr2, hcast⟩ := castAll_ok_mem hok c hc
  obtain ⟨r, hr, hfillr⟩ := List.mem_map.mp hr2
  obtain ⟨q, hq2, hceq⟩ := castRecord_ok_elim hcast
  have hqb : 1 ≤ q ∧ q ≤ 5 := by
    cases hrq : r.quantity with
    | some q0 =>
      have hfq : fillQuantity ds r = r := by simp only [fillQuantity, hrq]
      rw [← hfillr, hfq, hrq] at hq2
      injection hq2 with hq2
      rw [← hq2]
      exact hq r hr q0 hrq
    | none =>
      have hfq : fillQuantity ds r =
          { r with quantity := seriesMedian (definedQuantities ds r.product) } := by
        simp only [fillQuantity, hrq]
      rw [← hfillr, hfq] at hq2
      have hgb : ∀ x ∈ definedQuantities ds r.product, 1 ≤ x ∧ x ≤ 5 := by
        intro x hx
        obtain ⟨r3, hr3, hx3⟩ := List.mem_filterMap.mp hx
        exact hq r3 (List.mem_filter.mp hr3).1 x hx3
      exact seriesMedian_bounds hgb hq2
  have hup : r2.unit_price = r.unit_price := by
    rw [← hfillr]; exact fillQuantity_unit_price ds r
  have hpp : (0 : ℚ) < r2.unit_price := by rw [hup]; exact hp r hr
  have htb := truncToInt_bounds hqb.1 hqb.2
  subst hceq
  refine ⟨htb, ?_⟩
  have hcastpos : (0 : ℚ) < (truncToInt q : ℚ) := by
    have : (1 : ℚ) ≤ (truncToInt q : ℚ) := by exact_mod_cast htb.1
    linarith
  exact mul_pos hcastpos hpp

/-- C10 counterexample: a dataset satisfying all of C10's stated
hypotheses (`dsFreePrice`: one record, quantity 2, unit price 0) whose
cleaned revenue is 0, not strictly positive. -/
theorem positiveRevenue_counterexample : ¬ claimC10Statement dsFreePrice := by
  intro h
  have h2 := h (by decide) (by decide) outFreePrice (by decide)
    ⟨0, "A", 2, 0, 0⟩ (by decide)
  exact absurd h2.2 (by decide)

/-- C10 witness: the amended theorem on a positive-price variant. -/
theorem clean_bounds_witness :
    (∀ r ∈ dsSmall, ∀ q, r.quantity = some q → 1 ≤ q ∧ q ≤ 5) ∧
    (∀ r ∈ dsSmall, 0 < r.unit_price) ∧
    cleanData dsSmall = .ok [⟨0, "A", 2, 10, 20⟩, ⟨1, "A", 2, 10, 20⟩] ∧
    ∀ c ∈ [(⟨0, "A", 2, 10, 20⟩ : CleanRecord), ⟨1, "A", 2, 10, 20⟩],
      (1 ≤ c.quantity ∧ c.quantity ≤ 5) ∧ 0 < c.revenue :=
  ⟨by decide, by decide, by decide,
    clean_bounds dsSmall (by decide) (by decide) _ (by decide)⟩

/-! ## Aggregator lemmas -/

theorem sum_filter_split {α : Type} (val : α → ℚ) (p : α → Bool) :
    ∀ l : List α,
      ((l.filter p).map val).sum + ((l.filter (fun a => !(p a))).map val).sum
        = (l.map val).sum := by
  intro l
  induction l with
  | nil => simp
  | cons a as ih =>
    cases hp : p a with
    | true => simp [List.filter_cons, hp, ← ih]; ring
    | false => simp [List.filter_cons, hp, ← ih]; ring

theorem sum_fiberwise {α κ : Type} [BEq κ] [LawfulBEq κ] (key : α → κ) (val : α → ℚ) :
    ∀ (ks : List κ), ks.Nodup → ∀ (l : List α), (∀ a ∈ l, key a ∈ ks) →
      (ks.map (fun k => ((l.filter (fun a => key a == k)).map val).sum)).sum
        = (l.map val).sum := by
  intro ks
  induction ks with
  | nil =>
    intro _ l hl
    cases l with
    | nil => simp
    | cons a as => exact absurd (hl a (List.mem_cons_self a as)) (by simp)
  | cons k ks ih =>
    intro hnd l hl
    have hknotin : k ∉ ks := (List.nodup_cons.mp hnd).1
    have hsplit := sum_filter_split val (fun a => key a == k) l
    have hrest : ∀ k2 ∈ ks,
        l.filter (fun a => key a == k2) =
          (l.filter (fun a => !(key a == k))).filter (fun a => key a == k2) := by
      intro k2 hk2
      rw [List.filter_filter]
      apply List.filter_congr
      intro a _
      cases hak : key a == k2 with
      | false => simp
      | true =>
        have heq : key a = k2 := by simpa using hak
        have hne : ¬ key a = k := by
          intro hckk
          exact hknotin (by rw [← hckk, heq]; exact hk2)
        simp [hak, beq_eq_false_iff_ne.mpr hne]
    have hmem2 : ∀ a ∈ l.filter (fun a => !(key a == k)), key a ∈ ks := by
      intro a ha
      have hin := List.mem_filter.mp ha
      have hne : (key a == k) = false := by simpa using hin.2
      rcases List.mem_cons.mp (hl a hin.1) with h0 | h0
      · rw [h0] at hne; simp at hne
      · exact h0
    have hcg : ∀ k2 ∈ ks,
        ((l.filter (fun a => key a == k2)).map val).sum =
          (((l.filter (fun a => !(key a == k))).filter
            (fun a => key a == k2)).map val).sum := by
      intro k2 hk2
      rw [← hrest k2 hk2]
    calc ((k :: ks).map (fun k2 => ((l.filter (fun a => key a == k2)).map val).sum)).sum
        = ((l.filter (fun a => key a == k)).map val).sum +
            (ks.map (fun k2 => ((l.filter (fun a => key a == k2)).map val).sum)).sum := by
          simp
      _ = ((l.filter (fun a => key a == k)).map val).sum +
            (ks.map (fun k2 => (((l.filter (fun a => !(key a == k))).filter
              (fun a => key a == k2)).map val).sum)).sum := by
          rw [List.map_congr_left hcg]
      _ = ((l.filter (fun a => key a == k)).map val).sum +
            ((l.filter (fun a => !(key a == k))).map val).sum := by
          rw [ih (List.nodup_cons.mp hnd).2 _ hmem2]
      _ = (l.map val).sum := hsplit

/-- C6: the sum of the monthly aggregates' revenues equals the total
revenue (exactly, in the exact-rational embedding): grouping by month
partitions the records. -/
theorem monthly_total (l : List CleanRecord) :
    ((monthly_revenue l).map (fun mr => mr.2)).sum = total_revenue l := by
  unfold monthly_revenue total_revenue
  rw [List.map_map]
  have := sum_fiberwise (fun c : CleanRecord => monthKey c.date) (fun c => c.revenue)
    ((l.map (fun c => monthKey c.date)).dedup) (List.nodup_dedup _) l
    (fun a ha => List.mem_dedup.mpr (List.mem_map_of_mem _ ha))
  exact this

/-- C7: the top-products ranking has length `min 5 (number of distinct
products)` and is sorted non-increasingly by summed revenue. -/
theorem top_products_spec (l : List CleanRecord) :
    (top_products l).length = min 5 ((l.map (fun c => c.product)).dedup).length ∧
    (top_products l).Sorted byRevenueDesc := by
  constructor
  · unfold top_products productRevenueTotals
    rw [List.length_take, List.length_insertionSort, List.length_map]
  · unfold top_products
    exact List.Pairwise.sublist (List.take_sublist _ _)
      (List.sorted_insertionSort byRevenueDesc _)

/-! ## Generator lemmas -/

/-- C9: for every run of the generator (any draws satisfying numpy's
guarantees: `randint(1, 6)` values are 1..5 by construction, the
without-replacement choice yields `int(n*0.05)` distinct indices) the
record set has exactly `n = 500` records, exactly 25 of them have an
absent quantity, and every defined quantity lies in `[1, 5]`. -/
theorem generator_counts (prodChoice : Fin nRecords → Fin 10)
    (qtyDraw : Fin nRecords → Fin 5) (missing : List (Fin nRecords))
    (hnd : missing.Nodup) (hlen : missing.length = missingCount) :
    (generate prodChoice qtyDraw missing).length = nRecords ∧
    ((generate prodChoice qtyDraw missing).filter
      (fun g => g.quantity == none)).length = missingCount ∧
    ∀ g ∈ generate prodChoice qtyDraw missing, ∀ q, g.quantity = some q →
      1 ≤ q ∧ q ≤ 5 := by
  refine ⟨?_, ?_, ?_⟩
  · unfold generate
    rw [List.length_map, List.length_finRange]
  · unfold generate
    rw [← List.countP_eq_length_filter, List.countP_map]
    have hcc : List.countP
        ((fun g : GenRecord => g.quantity == none) ∘ fun i =>
          ({ date := dateRangeNs i,
             product := products.getD (prodChoice i).1 "",
             quantity := if i ∈ missing then none else some ((qtyDraw i).1 + 1),
             unit_price := prices (products.getD (prodChoice i).1 "") } : GenRecord))
        (List.finRange nRecords)
        = List.countP (fun i => decide (i ∈ missing)) (List.finRange nRecords) := by
      apply List.countP_congr
      intro i _
      by_cases hm : i ∈ missing
      · simp [Function.comp, hm]
      · simp [Function.comp, hm]
    rw [hcc, List.countP_eq_length_filter]
    have hperm : List.Perm
        ((List.finRange nRecords).filter (fun i => decide (i ∈ missing)))
        missing := by
      rw [List.perm_ext_iff_of_nodup
        (List.Nodup.filter _ (List.nodup_finRange _)) hnd]
      intro a
      simp [List.mem_filter, List.mem_finRange]
    rw [hperm.length_eq, hlen]
  · intro g hg q hq
    obtain ⟨i, _, hgi⟩ := List.mem_map.mp hg
    subst hgi
    by_cases hm : i ∈ missing
    · simp [hm] at hq
    · simp only [hm, if_false, ite_false] at hq
      have h5 : (qtyDraw i).1 < 5 := (qtyDraw i).2
      have : (qtyDraw i).1 + 1 = q := by simpa using hq
      omega

/-- C9 witness: constant draws, the first 25 indices missing. -/
theorem generator_counts_witness :
    (((List.finRange nRecords).take 25).Nodup ∧
     ((List.finRange nRecords).take 25).length = missingCount) ∧
    (generate (fun _ => 0) (fun _ => 0) ((List.finRange nRecords).take 25)).length
      = nRecords ∧
    ((generate (fun _ => 0) (fun _ => 0) ((List.finRange nRecords).take 25)).filter
      (fun g => g.quantity == none)).length = missingCount ∧
    ∀ g ∈ generate (fun _ => 0) (fun _ => 0) ((List.finRange nRecords).take 25),
      ∀ q, g.quantity = some q → 1 ≤ q ∧ q ≤ 5 := by
  have hnd : ((List.finRange nRecords).take 25).Nodup :=
    List.Nodup.sublist (List.take_sublist _ _) (List.nodup_finRange _)
  have hl : ((List.finRange nRecords).take 25).length = missingCount := by
    rw [List.length_take, List.length_finRange]
    decide
  exact ⟨⟨hnd, hl⟩, generator_counts (fun _ => 0) (fun _ => 0) _ hnd hl⟩

/-! ## Serialization lemmas -/

theorem nsPerSec_eq : nsPerSec = 1000000000 := rfl

theorem minuteNs_eq : minuteNs = 60000000000 := by norm_num [minuteNs, nsPerSec]

theorem hourNs_eq : hourNs = 3600000000000 := by norm_num [hourNs, minuteNs, nsPerSec]

theorem dayNs_eq : dayNs = 86400000000000 := by
  norm_num [dayNs, hourNs, minuteNs, nsPerSec]

theorem yearSpanNs_eq : yearSpanNs = 31536000000000000 := by
  norm_num [yearSpanNs, dayNs_eq]

theorem md_inverse : ∀ day, day < 366 →
    dayOfMonthDay monthLengths2024 (monthDayOfYearDay day).1 (monthDayOfYearDay day).2
      = day ∧
    (monthDayOfYearDay day).1 < 100 ∧ (monthDayOfYearDay day).2 < 100 := by decide

theorem padNum_length (w n : ℕ) : (padNum w n).length = w := by
  induction w generalizing n with
  | zero => rfl
  | succ w ih => simp [padNum, ih]

theorem digitChar_isDigit : ∀ d, d < 10 → (Nat.digitChar d).isDigit = true := by decide

theorem digitChar_toNat : ∀ d, d < 10 → (Nat.digitChar d).toNat - 48 = d := by decide

theorem parseDigitsAux_append (a b : List Char) (acc : ℕ) :
    parseDigitsAux (a ++ b) acc =
      match parseDigitsAux a acc with
      | some v => parseDigitsAux b v
      | none => none := by
  induction a generalizing acc with
  | nil => rfl
  | cons c cs ih =>
    by_cases hc : c.isDigit
    · simp only [List.cons_append, parseDigitsAux, if_pos hc]
      exact ih _
    · simp only [List.cons_append, parseDigitsAux, if_neg hc]

theorem parseDigitsAux_digit (d acc : ℕ) (h : d < 10) :
    parseDigitsAux [Nat.digitChar d] acc = some (acc * 10 + d) := by
  simp only [parseDigitsAux, digitChar_isDigit d h, if_true, digitChar_toNat d h]

theorem parseDigitsAux_padNum (w : ℕ) :
    ∀ n acc, n < 10 ^ w → parseDigitsAux (padNum w n) acc = some (acc * 10 ^ w + n) := by
  induction w with
  | zero =>
    intro n acc h
    have : n = 0 := by omega
    subst this
    simp [padNum, parseDigitsAux]
  | succ w ih =>
    intro n acc h
    have hd : n / 10 < 10 ^ w := by
      rw [pow_succ] at h
      omega
    rw [padNum, parseDigitsAux_append, ih (n / 10) acc hd]
    show parseDigitsAux [Nat.digitChar (n % 10)] (acc * 10 ^ w + n / 10)
      = some (acc * 10 ^ (w + 1) + n)
    rw [parseDigitsAux_digit (n % 10) _ (by omega)]
    have hmod : n / 10 * 10 + n % 10 = n := by omega
    congr 1
    calc (acc * 10 ^ w + n / 10) * 10 + n % 10
        = acc * (10 ^ w * 10) + (n / 10 * 10 + n % 10) := by ring
      _ = acc * 10 ^ (w + 1) + n := by rw [hmod, ← pow_succ]

theorem parseDigits_padNum (w n : ℕ) (h : n < 10 ^ w) :
    parseDigits (padNum w n) = some n := by
  unfold parseDigits
  rw [parseDigitsAux_padNum w n 0 h]
  simp

theorem take_pref {α : Type} (a b : List α) (w : ℕ) (h : a.length = w) :
    (a ++ b).take w = a := by
  subst h
  exact List.take_left a b

theorem drop_pref {α : Type} (a b : List α) (w : ℕ) (h : a.length = w) :
    (a ++ b).drop w = b := by
  subst h
  exact List.drop_left a b

theorem readPad_padNum (w n : ℕ) (rest : List Char) (h : n < 10 ^ w) :
    readPad w (padNum w n ++ rest) = some (n, rest) := by
  unfold readPad
  rw [take_pref _ _ _ (padNum_length w n), drop_pref _ _ _ (padNum_length w n),
    padNum_length, if_pos rfl, parseDigits_padNum _ _ h]
  rfl

theorem readChar_cons (c : Char) (rest : List Char) :
    readChar c (c :: rest) = some rest := by
  simp [readChar]

theorem data_mk (l : List Char) : (String.mk l).data = l := rfl

theorem readFrac_fracTail (frac : ℕ) (h : frac < nsPerSec) :
    readFrac (fracTail frac) = some frac := by
  unfold fracTail
  by_cases h0 : frac = 0
  · rw [if_pos h0, h0]
    rfl
  · rw [if_neg h0]
    by_cases h1000 : frac % 1000 = 0
    · rw [if_pos h1000]
      show (if (padNum 6 (frac / 1000)).length = 6 then
          Option.map (fun x => x * 1000) (parseDigits (padNum 6 (frac / 1000)))
        else if (padNum 6 (frac / 1000)).length = 9 then
          parseDigits (padNum 6 (frac / 1000))
        else none) = some frac
      rw [padNum_length, if_pos rfl,
        parseDigits_padNum 6 (frac / 1000) (by rw [nsPerSec_eq] at h; omega)]
      show some (frac / 1000 * 1000) = some frac
      congr 1
      omega
    · rw [if_neg h1000]
      show (if (padNum 9 frac).length = 6 then
          Option.map (fun x => x * 1000) (parseDigits (padNum 9 frac))
        else if (padNum 9 frac).length = 9 then parseDigits (padNum 9 frac)
        else none) = some frac
      rw [padNum_length, if_neg (by omega : ¬ (9 : ℕ) = 6), if_pos rfl,
        parseDigits_padNum 9 frac (by rw [nsPerSec_eq] at h; omega)]

theorem parseTs_formatTs (ns : ℕ) (h : ns < 366 * dayNs) :
    parseTs (formatTs ns) = some ns := by
  have hday : ns / dayNs < 366 := by
    rw [dayNs_eq] at h ⊢
    omega
  obtain ⟨hinv, hmo, hd⟩ := md_inverse (ns / dayNs) hday
  have hho : ns % dayNs / hourNs < 100 := by
    rw [dayNs_eq, hourNs_eq]
    omega
  have hmi : ns % dayNs % hourNs / minuteNs < 100 := by
    rw [dayNs_eq, hourNs_eq, minuteNs_eq]
    omega
  have hss : ns % dayNs % hourNs % minuteNs / nsPerSec < 100 := by
    rw [dayNs_eq, hourNs_eq, minuteNs_eq, nsPerSec_eq]
    omega
  have hfr : ns % dayNs % hourNs % minuteNs % nsPerSec < nsPerSec := by
    rw [nsPerSec_eq]
    omega
  simp only [parseTs, formatTs, data_mk]
  rw [readPad_padNum 4 2024 _ (by norm_num)]
  simp only [Option.bind_eq_bind, Option.some_bind]
  rw [readChar_cons]
  simp only [Option.bind_eq_bind, Option.some_bind]
  rw [readPad_padNum 2 _ _ (by omega)]
  simp only [Option.bind_eq_bind, Option.some_bind]
  rw [readChar_cons]
  simp only [Option.bind_eq_bind, Option.some_bind]
  rw [readPad_padNum 2 _ _ (by omega)]
  simp only [Option.bind_eq_bind, Option.some_bind]
  rw [readChar_cons]
  simp only [Option.bind_eq_bind, Option.some_bind]
  rw [readPad_padNum 2 _ _ hho]
  simp only [Option.bind_eq_bind, Option.some_bind]
  rw [readChar_cons]
  simp only [Option.bind_eq_bind, Option.some_bind]
  rw [readPad_padNum 2 _ _ hmi]
  simp only [Option.bind_eq_bind, Option.some_bind]
  rw [readChar_cons]
  simp only [Option.bind_eq_bind, Option.some_bind]
  rw [readPad_padNum 2 _ _ hss]
  simp only [Option.bind_eq_bind, Option.some_bind]
  rw [readFrac_fracTail _ hfr]
  simp only [Option.bind_eq_bind, Option.some_bind]
  rw [if_pos trivial, hinv]
  congr 1
  rw [dayNs_eq, hourNs_eq, minuteNs_eq, nsPerSec_eq]
  omega

theorem natDigitsAux_parse : ∀ fuel n, n < fuel →
    parseDigits (natDigitsAux fuel n) = some n := by
  intro fuel
  induction fuel with
  | zero => intro n h; omega
  | succ fuel ih =>
    intro n h
    by_cases h10 : n < 10
    · rw [natDigitsAux, if_pos h10]
      unfold parseDigits
      rw [parseDigitsAux_digit n 0 h10]
      simp
    · rw [natDigitsAux, if_neg h10]
      unfold parseDigits
      rw [parseDigitsAux_append]
      have hfuel : n / 10 < fuel := by omega
      have hrec := ih (n / 10) hfuel
      unfold parseDigits at hrec
      rw [hrec]
      show parseDigitsAux [Nat.digitChar (n % 10)] (n / 10) = some n
      rw [parseDigitsAux_digit _ _ (by omega)]
      congr 1
      omega

theorem natDigits_parse (n : ℕ) : parseDigits (natDigits n) = some n :=
  natDigitsAux_parse (n + 1) n (by omega)

theorem natDigitsAux_isDigit : ∀ fuel n, ∀ c ∈ natDigitsAux fuel n,
    c.isDigit = true := by
  intro fuel
  induction fuel with
  | zero => intro n c hc; exact absurd hc (by simp [natDigitsAux])
  | succ fuel ih =>
    intro n c hc
    rw [natDigitsAux] at hc
    by_cases h : n < 10
    · rw [if_pos h] at hc
      simp only [List.mem_singleton] at hc
      subst hc
      exact digitChar_isDigit n h
    · rw [if_neg h] at hc
      rcases List.mem_append.mp hc with h1 | h1
      · exact ih (n / 10) c h1
      · simp only [List.mem_singleton] at h1
        subst h1
        exact digitChar_isDigit _ (by omega)

theorem natDigits_isDigit (n : ℕ) : ∀ c ∈ natDigits n, c.isDigit = true :=
  natDigitsAux_isDigit (n + 1) n

theorem natDigits_ne_nil (n : ℕ) : natDigits n ≠ [] := by
  unfold natDigits
  rw [natDigitsAux]
  by_cases h : n < 10
  · rw [if_pos h]
    simp
  · rw [if_neg h]
    simp

theorem natDigits_no_dot (n : ℕ) : ∀ c ∈ natDigits n, ¬ c = '.' := by
  intro c hc he
  have hd := natDigits_isDigit n c hc
  rw [he] at hd
  exact absurd hd (by decide)

theorem splitAtDot_no_dot : ∀ (l : List Char), (∀ c ∈ l, ¬ c = '.') →
    splitAtDot l = (l, none) := by
  intro l
  induction l with
  | nil => intro _; rfl
  | cons c cs ih =>
    intro h
    unfold splitAtDot
    rw [if_neg (h c (List.mem_cons_self c cs)),
      ih (fun x hx => h x (List.mem_cons_of_mem c hx))]

theorem splitAtDot_append (a b : List Char) (h : ∀ c ∈ a, ¬ c = '.') :
    splitAtDot (a ++ '.' :: b) = (a, some b) := by
  induction a with
  | nil =>
    show splitAtDot ('.' :: b) = ([], some b)
    unfold splitAtDot
    rw [if_pos rfl]
  | cons c cs ih =>
    simp only [List.cons_append]
    unfold splitAtDot
    rw [if_neg (h c (List.mem_cons_self c cs)),
      ih (fun x hx => h x (List.mem_cons_of_mem c hx))]

theorem parseQ_nat (n : ℕ) : parseQ (String.mk (natDigits n)) = some (n : ℚ) := by
  unfold parseQ
  rw [data_mk, splitAtDot_no_dot _ (natDigits_no_dot n)]
  show (parseDigits (natDigits n)).map (fun k => (k : ℚ)) = some (n : ℚ)
  rw [natDigits_parse]
  rfl

theorem parseQ_natDot0 (n : ℕ) : parseQ (String.mk (natDigits n ++ ['.', '0']))
    = some (n : ℚ) := by
  unfold parseQ
  rw [data_mk,
    show (natDigits n ++ ['.', '0'] : List Char) = natDigits n ++ '.' :: ['0'] from rfl,
    splitAtDot_append _ _ (natDigits_no_dot n)]
  dsimp only
  rw [natDigits_parse, show parseDigits ['0'] = some 0 from rfl]
  show some ((n : ℚ) + (0 : ℚ) / (10 : ℚ) ^ (1 : ℕ)) = some (n : ℚ)
  norm_num

theorem stringMk_ne_empty {l : List Char} (h : l ≠ []) : String.mk l ≠ "" := by
  intro he
  apply h
  have h2 : (String.mk l).data = ("" : String).data := by rw [he]
  rw [data_mk] at h2
  exact h2

theorem parseRow_serializeRow (g : GenRecord) (h : g.date < 366 * dayNs) :
    parseRow (serializeRow g) = some (toLoaded g) := by
  obtain ⟨gd, gp, gq, gu⟩ := g
  cases gq with
  | none =>
    unfold serializeRow parseRow toLoaded
    dsimp only
    rw [parseTs_formatTs gd h]
    simp only [Option.bind_eq_bind, Option.some_bind]
    rw [show parseQuantityCell "" = some none from rfl]
    simp only [Option.bind_eq_bind, Option.some_bind]
    rw [parseQ_nat gu]
    simp only [Option.bind_eq_bind, Option.some_bind]
    rfl
  | some q =>
    unfold serializeRow parseRow toLoaded
    dsimp only
    rw [parseTs_formatTs gd h]
    simp only [Option.bind_eq_bind, Option.some_bind]
    have hne : String.mk (natDigits q ++ ['.', '0']) ≠ "" :=
      stringMk_ne_empty (by simp)
    rw [show parseQuantityCell (String.mk (natDigits q ++ ['.', '0']))
        = (parseQ (String.mk (natDigits q ++ ['.', '0']))).map some from by
      unfold parseQuantityCell
      rw [if_neg hne]]
    rw [parseQ_natDot0 q]
    simp only [Option.map_some', Option.bind_eq_bind, Option.some_bind]
    rw [parseQ_nat gu]
    simp only [Option.bind_eq_bind, Option.some_bind]
    rfl

theorem parseRows_map (gs : List GenRecord) (h : ∀ g ∈ gs, g.date < 366 * dayNs) :
    parseRows (gs.map serializeRow) = some (gs.map toLoaded) := by
  induction gs with
  | nil => rfl
  | cons g gs ih =>
    simp only [List.map_cons, parseRows]
    rw [parseRow_serializeRow g (h g (List.mem_cons_self g gs))]
    simp only [Option.bind_eq_bind, Option.some_bind]
    rw [ih (fun x hx => h x (List.mem_cons_of_mem g hx))]
    rfl

theorem dateRangeNs_lt (i : Fin nRecords) : dateRangeNs i < 366 * dayNs := by
  have h2 := i.2
  unfold dateRangeNs nRecords at *
  rw [yearSpanNs_eq, dayNs_eq]
  omega

/-- C4: serializing the generated record set to `sales.csv` and reading
it back yields exactly the same rows in the same order: same row count,
same value in every cell (dates round-trip through their timestamp
strings, quantities keep their absent/defined state, prices their
value). -/
theorem roundTrip (prodChoice : Fin nRecords → Fin 10) (qtyDraw : Fin nRecords → Fin 5)
    (missing : List (Fin nRecords)) :
    deserializeFile (serializeFile (generate prodChoice qtyDraw missing)) =
      some ((generate prodChoice qtyDraw missing).map toLoaded) := by
  unfold deserializeFile serializeFile
  rw [if_pos rfl]
  apply parseRows_map
  intro g hg
  obtain ⟨i, _, hgi⟩ := List.mem_map.mp hg
  subst hgi
  exact dateRangeNs_lt i

theorem digitChar_mod_isDigit (x : ℕ) : (Nat.digitChar (x % 10)).isDigit = true :=
  digitChar_isDigit _ (Nat.mod_lt _ (by omega))

theorem formatTs_structure (ns : ℕ) :
    ∃ dc tc, (formatTs ns).data = dc ++ ' ' :: tc ∧ isYMD (String.mk dc) = true := by
  refine ⟨padNum 4 2024 ++ '-' :: (padNum 2 (monthDayOfYearDay (ns / dayNs)).1 ++ '-' ::
    padNum 2 (monthDayOfYearDay (ns / dayNs)).2),
    padNum 2 (ns % dayNs / hourNs) ++ ':' :: (padNum 2 (ns % dayNs % hourNs / minuteNs) ++
      ':' :: (padNum 2 (ns % dayNs % hourNs % minuteNs / nsPerSec) ++
        fracTail (ns % dayNs % hourNs % minuteNs % nsPerSec))), ?_, ?_⟩
  · unfold formatTs
    rw [data_mk]
    simp [List.append_assoc]
  · unfold isYMD
    rw [data_mk]
    simp [padNum, digitChar_mod_isDigit]
    decide

/-- C5 counterexample: the first data row of the generated file has date
cell `2024-01-01 00:00:00` (a full timestamp, not a bare `YYYY-MM-DD`)
and quantity cell `1.0` (the float rendering, not a plain integer). -/
theorem csvFormat_counterexample : ¬ claimC5Statement genFile0 := by
  intro h
  have hlen : 0 < genFile0.rows.length := by
    have h500 : genFile0.rows.length = 500 := by
      unfold genFile0 serializeFile generate
      rw [List.length_map, List.length_map, List.length_finRange]
      rfl
    omega
  have hrow : genFile0.rows.get ⟨0, hlen⟩ =
      ⟨"2024-01-01 00:00:00", "Laptop", "1.0", "999"⟩ := rfl
  have hmem : (⟨"2024-01-01 00:00:00", "Laptop", "1.0", "999"⟩ : CsvRow) ∈
      genFile0.rows := hrow ▸ List.get_mem genFile0.rows 0 hlen
  have h0 := h.2 _ hmem
  exact absurd h0.1 (by decide)

/-- C5 (amended): every data row of the serialized file carries in its
date cell a full `str(Timestamp)` whose prefix before the first space is
a `YYYY-MM-DD` date (pandas writes the time of day too, never the bare
date), and its quantity cell is either empty (absent) or the float
rendering `q.0` of an integer quantity, under the header
`date,product,quantity,unit_price`. -/
theorem csvFormat_amended (prodChoice : Fin nRecords → Fin 10)
    (qtyDraw : Fin nRecords → Fin 5) (missing : List (Fin nRecords)) :
    (serializeFile (generate prodChoice qtyDraw missing)).header = csvHeader ∧
    ∀ row ∈ (serializeFile (generate prodChoice qtyDraw missing)).rows,
      (∃ dc tc, row.date.data = dc ++ ' ' :: tc ∧ isYMD (String.mk dc) = true) ∧
      (row.quantity = "" ∨
        ∃ k, row.quantity = String.mk (natDigits k ++ ['.', '0'])) := by
  refine ⟨rfl, ?_⟩
  intro row hrow
  obtain ⟨g, hg, hrg⟩ := List.mem_map.mp hrow
  subst hrg
  obtain ⟨j, _, hgj⟩ := List.mem_map.mp hg
  subst hgj
  dsimp only [serializeRow]
  constructor
  · exact formatTs_structure _
  · by_cases hm : j ∈ missing
    · left
      simp [hm]
    · right
      exact ⟨(qtyDraw j).1 + 1, by simp [hm]⟩

/-- C5 witness: the amended property at the first row of a concrete
generated file. -/
theorem csvFormat_amended_witness :
    ((⟨"2024-01-01 00:00:00", "Laptop", "1.0", "999"⟩ : CsvRow) ∈ genFile0.rows) ∧
    ((∃ dc tc, ("2024-01-01 00:00:00" : String).data = dc ++ ' ' :: tc ∧
        isYMD (String.mk dc) = true) ∧
      (("1.0" : String) = "" ∨
        ∃ k, ("1.0" : String) = String.mk (natDigits k ++ ['.', '0']))) := by
  have hlen : 0 < genFile0.rows.length := by
    have h500 : genFile0.rows.length = 500 := by
      unfold genFile0 serializeFile generate
      rw [List.length_map, List.length_map, List.length_finRange]
      rfl
    omega
  have hrow : genFile0.rows.get ⟨0, hlen⟩ =
      ⟨"2024-01-01 00:00:00", "Laptop", "1.0", "999"⟩ := rfl
  have hmem : (⟨"2024-01-01 00:00:00", "Laptop", "1.0", "999"⟩ : CsvRow) ∈
      genFile0.rows := hrow ▸ List.get_mem genFile0.rows 0 hlen
  exact ⟨hmem, (csvFormat_amended (fun _ => 0) (fun _ => 0) []).2 _ hmem⟩
